import Mathlib

/-!
Verification development for the estimareimob ingestion pipeline.

The Python sources (publi24_crawler.py, publi24_parser.py, pipeline.py,
scraper_skeleton.py) are shallowly embedded below.  Strings are modelled as
`List Char`; JSON values produced by `json.loads` are modelled by the
inductive type `Json`; floating point numbers are modelled by exact
rationals (the values exercised by the specification are exactly
representable).  Library calls whose internals are not repository code
(BeautifulSoup tag scanning, `json.loads`, the HTTP fetch, the geocoder)
are modelled by their outcomes: a script block carries the outcome of the
strict parse and of the trailing-comma-repaired parse, and the orchestrator
is parameterised by fetch / geocode / fault oracles.  Python exceptions that
escape a function are modelled with `Except Unit`.
-/

/-! ### Character and string primitives (models of Python str methods) -/

/-- Model of the regex class `\d` and `str.isdigit` for ASCII digits. -/
def isDig (c : Char) : Bool := 48 ≤ c.toNat && c.toNat ≤ 57

/-- Model of the regex class `\s` (Python whitespace). -/
def isPySpace (c : Char) : Bool :=
  c = ' ' || c = '\t' || c = '\n' || c = '\x0b' || c = '\x0c' || c = '\r'

/-- Model of `str.lower` on one character, for the ASCII letters and the
Romanian diacritics that occur in the repository's data. -/
def pyLowerChar (c : Char) : Char :=
  match c with
  | 'A' => 'a' | 'B' => 'b' | 'C' => 'c' | 'D' => 'd' | 'E' => 'e'
  | 'F' => 'f' | 'G' => 'g' | 'H' => 'h' | 'I' => 'i' | 'J' => 'j'
  | 'K' => 'k' | 'L' => 'l' | 'M' => 'm' | 'N' => 'n' | 'O' => 'o'
  | 'P' => 'p' | 'Q' => 'q' | 'R' => 'r' | 'S' => 's' | 'T' => 't'
  | 'U' => 'u' | 'V' => 'v' | 'W' => 'w' | 'X' => 'x' | 'Y' => 'y'
  | 'Z' => 'z'
  | 'Ă' => 'ă' | 'Â' => 'â' | 'Î' => 'î' | 'Ș' => 'ș' | 'Ț' => 'ț'
  | 'Ş' => 'ş' | 'Ţ' => 'ţ'
  | d => d

/-- Model of `str.upper` on one character (ASCII letters). -/
def pyUpperChar (c : Char) : Char :=
  match c with
  | 'a' => 'A' | 'b' => 'B' | 'c' => 'C' | 'd' => 'D' | 'e' => 'E'
  | 'f' => 'F' | 'g' => 'G' | 'h' => 'H' | 'i' => 'I' | 'j' => 'J'
  | 'k' => 'K' | 'l' => 'L' | 'm' => 'M' | 'n' => 'N' | 'o' => 'O'
  | 'p' => 'P' | 'q' => 'Q' | 'r' => 'R' | 's' => 'S' | 't' => 'T'
  | 'u' => 'U' | 'v' => 'V' | 'w' => 'W' | 'x' => 'X' | 'y' => 'Y'
  | 'z' => 'Z'
  | d => d

/-- Model of `str.lower`. -/
def pyLower (s : List Char) : List Char := s.map pyLowerChar

/-- Model of `str.upper`. -/
def pyUpper (s : List Char) : List Char := s.map pyUpperChar

/-- Model of `str.strip` (leading and trailing whitespace removed). -/
def pyStrip (s : List Char) : List Char :=
  ((s.dropWhile isPySpace).reverse.dropWhile isPySpace).reverse

/-- Whether `pat` is a prefix of `s` (model of `str.startswith`). -/
def startsWithL : List Char → List Char → Bool
  | [], _ => true
  | _ :: _, [] => false
  | p :: ps, c :: cs => p == c && startsWithL ps cs

/-- Whether `pat` is a suffix of `s` (model of `str.endswith`). -/
def endsWithL (pat s : List Char) : Bool := startsWithL pat.reverse s.reverse

/-- Whether `pat` occurs as a contiguous substring of `s`
(model of Python's `pat in s`). -/
def isSub (pat : List Char) : List Char → Bool
  | [] => startsWithL pat []
  | c :: rest => startsWithL pat (c :: rest) || isSub pat rest

/-- Numeric value of a list of ASCII digits. -/
def natVal (ds : List Char) : Nat := ds.foldl (fun a c => 10 * a + (c.toNat - 48)) 0

/-- Leftmost match of the regex `\d+` (maximal digit run), as used by
`extract_total_rooms` on the structured feature value. -/
def firstNat : List Char → Option Nat
  | [] => none
  | c :: rest =>
    if isDig c then some (natVal ((c :: rest).takeWhile isDig)) else firstNat rest

/-- Leftmost match of the regex `-?\d+`, as used by `extract_floor`. -/
def firstInt : List Char → Option Int
  | [] => none
  | '-' :: rest =>
    match rest with
    | c :: _ => if isDig c then some (-(natVal (rest.takeWhile isDig) : Int)) else firstInt rest
    | [] => none
  | c :: rest => if isDig c then some ((natVal ((c :: rest).takeWhile isDig) : Int)) else firstInt rest

/-- Scanner for the case-insensitive regex `(\d+)\s*camere?`: at the leftmost
position where a digit run, optional whitespace and the letters `camer`
line up, return the captured number.  The input is lowered first, which is
equivalent to `re.IGNORECASE` for this pattern. -/
def findRoomsAux : List Char → Option Int
  | [] => none
  | c :: rest =>
    if isDig c then
      let ds := (c :: rest).takeWhile isDig
      let after := ((c :: rest).dropWhile isDig).dropWhile isPySpace
      if startsWithL [ 'c', 'a', 'm', 'e', 'r' ] after then some ((natVal ds : Int))
      else findRoomsAux rest
    else findRoomsAux rest

/-- Search for `(\d+)\s*camere?` with `re.IGNORECASE`. -/
def findRooms (s : List Char) : Option Int := findRoomsAux (pyLower s)

/-- Leftmost maximal run matching the regex `[\d\.]+`, as used by
`clean_price`. -/
def firstTok : List Char → Option (List Char)
  | [] => none
  | c :: rest =>
    if isDig c || c = '.' then some ((c :: rest).takeWhile (fun d => isDig d || d = '.'))
    else firstTok rest

/-- Model of Python `float` applied to a string over the alphabet of digits
and dots: at most one dot and at least one digit, otherwise `ValueError`
(`none`).  Exponent, sign and inf/nan forms do not occur in this alphabet. -/
def floatOfTok (tok : List Char) : Option ℚ :=
  let ip := tok.takeWhile isDig
  match tok.dropWhile isDig with
  | [] => if ip.isEmpty then none else some (mkRat (natVal ip) 1)
  | '.' :: fr =>
    if fr.all isDig && !(ip.isEmpty && fr.isEmpty) then
      some (mkRat (natVal ip * 10 ^ fr.length + natVal fr) (10 ^ fr.length))
    else none
  | _ => none

/-- Model of Python `float(str)` for plain decimal literals: optional
surrounding whitespace, optional sign, digits with at most one dot.
Exponent and inf/nan forms are not exercised by the repository's data. -/
def strToRat (s : List Char) : Option ℚ :=
  match pyStrip s with
  | '-' :: rest => (floatOfTok rest).map (fun q => -q)
  | '+' :: rest => floatOfTok rest
  | t => floatOfTok t

/-- Worker for `replaceSub`: with `skip = 0`, at each position where `pat`
matches emit `rep` and skip the remaining `pat.length - 1` matched
characters via the counter. -/
def replaceSubAux (pat rep : List Char) : Nat → List Char → List Char
  | _, [] => []
  | k + 1, _ :: rest => replaceSubAux pat rep k rest
  | 0, c :: rest =>
    if startsWithL pat (c :: rest) then rep ++ replaceSubAux pat rep (pat.length - 1) rest
    else c :: replaceSubAux pat rep 0 rest

/-- Model of `str.replace(pat, rep)` for a non-empty pattern (left-to-right,
non-overlapping).  The empty-pattern case of Python is never exercised by
the repository and is mapped to the identity. -/
def replaceSub (pat rep : List Char) (s : List Char) : List Char :=
  if pat.isEmpty then s else replaceSubAux pat rep 0 s

/-! ### JSON values (results of json.loads) -/

/-- Python values produced by `json.loads`: None, bool, numbers (modelled as
exact rationals), str, list and dict.  Objects produced by JSON parsing have
pairwise distinct keys; lookup takes the first binding. -/
inductive Json : Type where
  | null : Json
  | bool (b : Bool) : Json
  | num (q : ℚ) : Json
  | str (s : List Char) : Json
  | arr (xs : List Json) : Json
  | obj (kvs : List (List Char × Json)) : Json

instance : Inhabited Json := ⟨Json.null⟩

/-- Dictionary lookup (`dict.get(key)` on a parsed JSON object). -/
def jlookup : List (List Char × Json) → List Char → Option Json
  | [], _ => none
  | (k, v) :: rest, key => if k == key then some v else jlookup rest key

/-- Python truthiness of a JSON-derived value. -/
def jTruthy : Json → Bool
  | .null => false
  | .bool b => b
  | .num q => q != 0
  | .str s => !s.isEmpty
  | .arr xs => !xs.isEmpty
  | .obj kvs => !kvs.isEmpty

/-- Model of Python `str()` on JSON-derived values.  Strings, integers,
booleans and None are rendered as Python renders them; the decimal rendering
of non-integer floats and the rendering of containers are abstracted (they
are not exercised by the claims, and the theorems below do not depend on
them). -/
def pyStr : Json → List Char
  | .str s => s
  | .null => [ 'N', 'o', 'n', 'e' ]
  | .bool true => [ 'T', 'r', 'u', 'e' ]
  | .bool false => [ 'F', 'a', 'l', 's', 'e' ]
  | .num q => (toString q.num).data ++ (if q.den = 1 then [] else [ '/' ] ++ (toString q.den).data)
  | .arr _ => [ '<', 'l', 'i', 's', 't', '>' ]
  | .obj _ => [ '<', 'd', 'i', 'c', 't', '>' ]

/-- Model of Python iteration `for x in v`: lists yield their items, strings
yield one-character strings, dicts yield their keys; other values raise
`TypeError` (`none`). -/
def pyIter : Json → Option (List Json)
  | .arr xs => some xs
  | .str s => some (s.map (fun c => .str [ c ]))
  | .obj kvs => some (kvs.map (fun kv => .str kv.1))
  | _ => none

/-! ### Listing extractor: publi24_parser.Publi24ListingParser.extract_json_ld -/

def typeKey : List Char := "@type".data
def offersKey : List Char := "offers".data
def graphKey : List Char := "@graph".data
def productStr : List Char := "Product".data

/-- The acceptance test of `extract_json_ld`: a dict whose `@type` equals
`"Product"` and which carries an `"offers"` key.  (Python `==` between a
non-string and `"Product"` is `False`.) -/
def isProduct : Json → Bool
  | .obj kvs =>
    (match jlookup kvs typeKey with
     | some (.str s) => s == productStr
     | _ => false)
    && (jlookup kvs offersKey).isSome
  | _ => false

/-- One script block of the document: the outcome of the strict JSON parse of
the cleaned tag text, and the outcome of the parse retried after the
trailing-comma repair (`re.sub(r',(\s*[}\]])', r'\1', ...)`). -/
structure ScriptBlock : Type where
  strict : Option Json
  repaired : Option Json

/-- Processing of one strictly parsed block, lines 92-116 of
publi24_parser.py: a dict is accepted if it is a Product with offers,
otherwise its `@graph` value (when present) is iterated looking for one; a
list is scanned for a dict item that is a Product with offers.  Iterating a
non-iterable `@graph` value raises `TypeError`, which the surrounding
`except json.JSONDecodeError` does not catch. -/
def processStrict (j : Json) : Except Unit (Option Json) :=
  match j with
  | .obj kvs =>
    if isProduct (.obj kvs) then .ok (some (.obj kvs))
    else
      match jlookup kvs graphKey with
      | some g =>
        match pyIter g with
        | some items => .ok (items.find? isProduct)
        | none => .error ()
      | none => .ok none
  | .arr xs => .ok (xs.find? isProduct)
  | _ => .ok none

/-- Model of `Publi24ListingParser.extract_json_ld`, lines 64-137: blocks are
tried in document order; a block that fails the strict parse is retried with
the trailing-comma repair, and a repaired value is accepted only by the
direct dict check (`isinstance(data, dict) and data.get("@type") ==
"Product" and "offers" in data`); any other failure skips the block. -/
def extract_json_ld : List ScriptBlock → Except Unit (Option Json)
  | [] => .ok none
  | b :: rest =>
    match b.strict with
    | some j =>
      match processStrict j with
      | .error e => .error e
      | .ok (some r) => .ok (some r)
      | .ok none => extract_json_ld rest
    | none =>
      match b.repaired with
      | some j => if isProduct j then .ok (some j) else extract_json_ld rest
      | none => extract_json_ld rest

/-! ### Claim-side target-selection rule (written from the specification) -/

/-- Modelled from the spec (claims C3/C5): the target-selection rule applied
to one parsed value — the value is accepted if it is, or contains via a
top-level list or a nested `@graph` array, a dict whose `@type` equals
`"Product"` and which has an `"offers"` key. -/
def specSelect (j : Json) : Option Json :=
  if isProduct j then some j
  else
    match j with
    | .arr xs => xs.find? isProduct
    | .obj kvs =>
      match jlookup kvs graphKey with
      | some (.arr gs) => gs.find? isProduct
      | _ => none
    | _ => none

/-- Modelled from the spec (claim C3): the first block in document order
whose parsed value (strict parse, else the repair pass) yields an accepted
object wins; otherwise extraction returns None. -/
def specExtract : List ScriptBlock → Option Json
  | [] => none
  | b :: rest =>
    match (b.strict <|> b.repaired).bind specSelect with
    | some r => some r
    | none => specExtract rest

/-- A strictly parsed dict whose `@graph` value, when present, is an array
(the shape the claim C3 talks about); other values are unconstrained. -/
def graphOk : Json → Bool
  | .obj kvs =>
    match jlookup kvs graphKey with
    | some (.arr _) => true
    | some _ => false
    | none => true
  | _ => true

def blockGraphOk (b : ScriptBlock) : Bool :=
  match b.strict with
  | some j => graphOk j
  | none => true

/-- A block needing the repair pass whose repaired value the code and the
claim-side rule treat identically: either a direct Product-with-offers dict,
or a value containing no accepted object at all. -/
def blockRepairOk (b : ScriptBlock) : Bool :=
  match b.strict, b.repaired with
  | none, some j => isProduct j || (specSelect j).isNone
  | _, _ => true

/-! ### Feature flattening: publi24_parser._flatten_features -/

def nameKey : List Char := "name".data
def valueKey : List Char := "value".data

/-- Python dict assignment `d[k] = v`: an existing key keeps its position and
gets the new value, a fresh key is appended. -/
def dictAssign (m : List (List Char × List Char)) (k v : List Char) :
    List (List Char × List Char) :=
  if m.any (fun p => p.1 == k) then m.map (fun p => if p.1 == k then (k, v) else p)
  else m ++ [(k, v)]

/-- Loop body of `_flatten_features`, lines 155-160 of publi24_parser.py:
for each dict entry, look up `name` and `value`; Python's `if name and
value:` keeps a pair only when both lookups are truthy. -/
def flattenAux (acc : List (List Char × List Char)) :
    List Json → List (List Char × List Char)
  | [] => acc
  | p :: rest =>
    match p with
    | .obj kvs =>
      match jlookup kvs nameKey, jlookup kvs valueKey with
      | some n, some v =>
        if jTruthy n && jTruthy v then flattenAux (dictAssign acc (pyStr n) (pyStr v)) rest
        else flattenAux acc rest
      | _, _ => flattenAux acc rest
    | _ => flattenAux acc rest

/-- Model of `Publi24ListingParser._flatten_features`. -/
def flatten_features (j : Json) : List (List Char × List Char) :=
  match j with
  | .arr props => flattenAux [] props
  | _ => []

/-- Modelled from the spec (claim C9, as stated): keep exactly the entries
that are dicts carrying both a `name` and a `value` field, string-coerced. -/
def flattenClaim (props : List Json) : List (List Char × List Char) :=
  props.filterMap fun p =>
    match p with
    | .obj kvs =>
      match jlookup kvs nameKey, jlookup kvs valueKey with
      | some n, some v => some (pyStr n, pyStr v)
      | _, _ => none
    | _ => none

/-- Modelled from the spec (claim C9, amended): keep exactly the entries that
are dicts carrying both fields with truthy values. -/
def flattenClaimAmended (props : List Json) : List (List Char × List Char) :=
  props.filterMap fun p =>
    match p with
    | .obj kvs =>
      match jlookup kvs nameKey, jlookup kvs valueKey with
      | some n, some v => if jTruthy n && jTruthy v then some (pyStr n, pyStr v) else none
      | _, _ => none
    | _ => none

/-! ### Field projection: publi24_parser.parse_listing -/

/-- The flat record built by `parse_listing`. -/
structure ParsedListing : Type where
  title : Option Json
  description : Option Json
  url : Option Json
  images : List Json
  price : Option ℚ
  currency : Option Json
  location_region : Option Json
  location_locality : Option Json
  usable_area_sqm : Option ℚ
  year_built : Option Int
  features : List (List Char × List Char)

/-- Model of Python `float(x)` on a JSON-derived value: numbers and numeric
strings convert, booleans convert to 0/1, anything else raises
`ValueError`/`TypeError` (which `_parse_numeric` catches). -/
def pyFloat : Json → Option ℚ
  | .num q => some q
  | .str s => strToRat s
  | .bool b => some (if b then 1 else 0)
  | _ => none

/-- Truncation toward zero, the behaviour of Python `int(float)`. -/
def truncQ (q : ℚ) : Int := if 0 ≤ q then ⌊q⌋ else -⌊-q⌋

/-- Model of `Publi24ListingParser._parse_numeric` with `is_float=True`. -/
def parseNumericF (v : Option Json) : Option ℚ := v.bind pyFloat

/-- Model of `Publi24ListingParser._parse_numeric` with `is_float=False`. -/
def parseNumericI (v : Option Json) : Option Int := (v.bind pyFloat).map truncQ

def imageKey : List Char := "image".data
def contentUrlKey : List Char := "contentUrl".data

/-- Image normalization, lines 193-204 of publi24_parser.py. -/
def pyImages (raw : Option Json) : List Json :=
  match raw.getD (.arr []) with
  | .arr xs =>
    xs.filterMap fun j =>
      match j with
      | .obj kvs => jlookup kvs contentUrlKey
      | .str s => some (.str s)
      | _ => none
  | .obj kvs =>
    match jlookup kvs contentUrlKey with
    | some v => [ v ]
    | none => []
  | .str s => [ .str s ]
  | _ => []

/-- Take the first element when the value is a non-empty list, as
`parse_listing` does for `offers` and `availableAtOrFrom`; an empty list is
left as is. -/
def firstIfList (j : Json) : Json :=
  match j with
  | .arr (x :: _) => x
  | _ => j

def priceKey : List Char := "price".data
def currencyKey : List Char := "priceCurrency".data
def availKey : List Char := "availableAtOrFrom".data
def addressKey : List Char := "address".data
def regionKey : List Char := "addressRegion".data
def localityKey : List Char := "addressLocality".data
def itemOfferedKey : List Char := "itemOffered".data
def floorSizeKey : List Char := "floorSize".data
def yearBuiltKey : List Char := "yearBuilt".data
def addPropKey : List Char := "additionalProperty".data

/-- Model of `Publi24ListingParser.parse_listing`, lines 177-256.  Each
`.get` on a value that is not a dict raises `AttributeError` (`Except.error`),
exactly where the Python code would: on `offers` after the take-first step,
on `availableAtOrFrom` after its take-first step, on `address`, on
`itemOffered` and on `floorSize`. -/
def parse_listing (j : Json) : Except Unit ParsedListing :=
  match j with
  | .obj kvs =>
    let title := jlookup kvs nameKey
    let description := jlookup kvs ("description".data)
    let url := jlookup kvs ("url".data)
    let images := pyImages (jlookup kvs imageKey)
    match firstIfList ((jlookup kvs offersKey).getD (.obj [])) with
    | .obj okvs =>
      let price := parseNumericF (jlookup okvs priceKey)
      let currency := jlookup okvs currencyKey
      match firstIfList ((jlookup okvs availKey).getD (.obj [])) with
      | .obj akvs =>
        match (jlookup akvs addressKey).getD (.obj []) with
        | .obj adkvs =>
          let location_region := jlookup adkvs regionKey
          let location_locality := jlookup adkvs localityKey
          match (jlookup okvs itemOfferedKey).getD (.obj []) with
          | .obj ikvs =>
            match (jlookup ikvs floorSizeKey).getD (.obj []) with
            | .obj fkvs =>
              let usable_area := parseNumericF (jlookup fkvs valueKey)
              let year_built :=
                match jlookup ikvs yearBuiltKey with
                | some (.obj ykvs) =>
                  if (jlookup ykvs valueKey).isSome then parseNumericI (jlookup ykvs valueKey)
                  else parseNumericI (some (.obj ykvs))
                | yb => parseNumericI yb
              let features := flatten_features ((jlookup ikvs addPropKey).getD (.arr []))
              .ok ⟨title, description, url, images, price, currency,
                   location_region, location_locality, usable_area, year_built, features⟩
            | _ => .error ()
          | _ => .error ()
        | _ => .error ()
      | _ => .error ()
    | _ => .error ()
  | _ => .error ()

/-! ### Field normalizers: pipeline.extract_floor, pipeline.extract_total_rooms -/

def etajKey : List Char := "Etaj".data
def parterStr : List Char := "parter".data
def demisolStr : List Char := "demisol".data
def mansardaStr : List Char := "mansarda".data

/-- Association lookup on the flattened feature dict (`features.get(key)`). -/
def lookupF : List (List Char × List Char) → List Char → Option (List Char)
  | [], _ => none
  | (k, v) :: rest, key => if k == key then some v else lookupF rest key

/-- Model of `pipeline.extract_floor`, lines 22-42. -/
def extract_floor (features : List (List Char × List Char)) : Option Int :=
  match lookupF features etajKey with
  | none => none
  | some v =>
    if v.isEmpty then none
    else
      let s := pyStrip (pyLower v)
      if isSub parterStr s then some 0
      else if isSub demisolStr s then some (-1)
      else if isSub mansardaStr s then some 99
      else firstInt s

/-- Modelled from the spec (claim C4, amended): case-insensitive over the
`Etaj` value, the ground-floor keyword maps to 0, the basement keyword to
-1, the ASCII attic keyword `mansarda` to 99, otherwise the first signed
integer substring; absent, empty or unparseable values yield null.  (The
diacritic spelling `Mansardă` contains none of the keywords.) -/
def floorSpecAmended (v : Option (List Char)) : Option Int :=
  match v with
  | none => none
  | some s0 =>
    if s0.isEmpty then none
    else
      let s := pyStrip (pyLower s0)
      if isSub parterStr s then some 0
      else if isSub demisolStr s then some (-1)
      else if isSub mansardaStr s then some 99
      else firstInt s

def numarCamereKey : List Char := "Numar camere".data

/-- One free-text stage of `extract_total_rooms` (the `if title:` /
`if description:` blocks of lines 55-66): a falsy value is skipped, a truthy
string is searched with the room pattern (first match returned, otherwise
fall through to `next`), and a truthy non-string raises `TypeError` from
`re.search`. -/
def roomsTextStage (x : Option Json) (next : Except Unit (Option Int)) :
    Except Unit (Option Int) :=
  match x with
  | some t =>
    if jTruthy t then
      match t with
      | .str s =>
        match findRooms s with
        | some n => .ok (some n)
        | none => next
      | _ => .error ()
    else next
  | none => next

/-- Model of `pipeline.extract_total_rooms`, lines 44-68, at the call site of
the orchestrator: the title and description arguments are the values stored
under `title` / `description` in the parsed record (possibly `None`, possibly
non-strings). -/
def extract_total_rooms (features : List (List Char × List Char))
    (title description : Option Json) : Except Unit (Option Int) :=
  let stages := roomsTextStage title (roomsTextStage description (.ok none))
  match lookupF features numarCamereKey with
  | some v =>
    if v.isEmpty then stages
    else
      match firstNat v with
      | some n => .ok (some (n : Int))
      | none => stages
  | none => stages

/-- Modelled from the spec (claim C6): sources tried in strict order —
numeric substring of the structured feature, then the `(\d+)\s*camere?`
pattern over the title, then over the description — first success wins. -/
def roomsSpec (v : Option (List Char)) (title description : List Char) : Option Int :=
  (v.bind fun s => (firstNat s).map (fun n => (n : Int)))
    <|> findRooms title <|> findRooms description

/-! ### Price cleaning: scraper_skeleton.BaseScraper.clean_price -/

def eurStr : List Char := "EUR".data

/-- Separator normalization of `clean_price`, lines 71-81: with both comma
and dot present, dots are thousands separators and the comma the decimal
mark; with only a comma, it is the decimal mark; otherwise dots are
thousands separators. -/
def sepNormalize (t : List Char) : List Char :=
  if t.any (fun c => c == ',') && t.any (fun c => c == '.') then
    (t.filter (fun c => c != '.')).map (fun c => if c = ',' then '.' else c)
  else if t.any (fun c => c == ',') then
    t.map (fun c => if c = ',' then '.' else c)
  else
    t.filter (fun c => c != '.')

/-- Model of `BaseScraper.clean_price`, lines 58-91 of scraper_skeleton.py.
A falsy (empty) input yields None; the string is uppercased, the currency
markers `EUR` and the euro sign removed, the result stripped and separator
normalized; the first `[\d\.]+` run is converted with `float`, any failure
yielding None. -/
def clean_price (s : List Char) : Option ℚ :=
  if s.isEmpty then none
  else
    (firstTok (sepNormalize (pyStrip
      ((replaceSub eurStr [] (pyUpper s)).filter (fun c => c != '€'))))).bind floatOfTok

/-! ### Crawler: publi24_crawler.Publi24Crawler -/

def publiDomain : List Char := "https://www.publi24.ro".data
def anuntStr : List Char := "/anunt/".data
def htmlSuffix : List Char := ".html".data

/-- The filter of `extract_urls_from_html`, line 74: the href contains
`/anunt/` and ends with `.html`. -/
def qualifiesHref (h : List Char) : Bool := isSub anuntStr h && endsWithL htmlSuffix h

/-- URL absolutization, lines 76-83 of publi24_crawler.py. -/
def absolutize (h : List Char) : List Char :=
  if startsWithL [ '/' ] h then publiDomain ++ h
  else if !startsWithL ('h' :: 't' :: 't' :: 'p' :: []) h then publiDomain ++ '/' :: h
  else h

/-- Modelled from the spec (claim C7, amended): a qualifying href starting
with `/` is prefixed with the site domain; an href starting with `http` —
the code's test for an absolute URL, whether or not the href actually has a
scheme — passes through unchanged; every other href is treated as a relative
path under the domain. -/
def absolutizeSpec (h : List Char) : List Char :=
  if startsWithL [ '/' ] h then publiDomain ++ h
  else if startsWithL ('h' :: 't' :: 't' :: 'p' :: []) h then h
  else publiDomain ++ '/' :: h

/-- Python set insertion, modelled extensionally as a duplicate-free list. -/
def setAdd (acc : List (List Char)) (u : List Char) : List (List Char) :=
  if acc.contains u then acc else acc ++ [ u ]

/-- Python `set.update`. -/
def setUnion (acc : List (List Char)) (xs : List (List Char)) : List (List Char) :=
  xs.foldl setAdd acc

/-- Model of `Publi24Crawler.extract_urls_from_html`, lines 60-87, at the
granularity of the list of href attributes found in the page. -/
def extract_urls_from_html (hrefs : List (List Char)) : List (List Char) :=
  hrefs.foldl (fun acc h => if qualifiesHref h then setAdd acc (absolutize h) else acc) []

/-- Model of the URL accumulation of `Publi24Crawler.run`, lines 103-129:
each fetched page's extracted set is merged into the running set
(`self.extracted_urls.update(urls_on_page)`); pages are the href lists of
the successfully fetched search pages. -/
def crawler_run (pages : List (List (List Char))) : List (List Char) :=
  pages.foldl (fun acc page => setUnion acc (extract_urls_from_html page)) []

/-! ### Ingestion orchestrator: pipeline.process_urls -/

/-- A committed row of the `properties` table (fields of models.Property that
the pipeline writes; timestamps are not modelled). -/
structure PropertyRow : Type where
  id : Nat
  ptype : List Char
  build_year : Option Int
  usable_area_sqm : Option ℚ
  floor : Option Int
  total_rooms : Option Int
  location : Option (ℚ × ℚ)

/-- A committed row of the `listings` table. -/
structure ListingRow : Type where
  property_id : Nat
  asking_price_eur : ℚ
  listing_url : List Char
  description_text : Option Json
  status : List Char

/-- The persistence store: committed rows plus the autoincrement counter. -/
structure Store : Type where
  properties : List PropertyRow
  listings : List ListingRow
  nextId : Nat

def emptyStore : Store := ⟨[], [], 1⟩

/-- The duplicate check of lines 92-99: an existing Listing with the exact
same URL. -/
def hasListing (s : Store) (url : List Char) : Bool :=
  s.listings.any (fun l => l.listing_url == url)

/-- Number of committed Listing rows carrying a given URL. -/
def countListings (s : Store) (url : List Char) : Nat :=
  s.listings.countP (fun l => l.listing_url == url)

/-- Property type inference, lines 128-137 of pipeline.py (on the lowered
title and lowered url). -/
def inferType (titleL urlL : List Char) : List Char :=
  if isSub ("apartament".data) titleL || isSub ("apartament".data) urlL then "apartment".data
  else if isSub ("casa".data) titleL || isSub ("casa".data) urlL
       || isSub ("vila".data) titleL then "house".data
  else if isSub ("teren".data) titleL || isSub ("teren".data) urlL then "land".data
  else "unknown".data

/-- Line 130, `parsed_data.get("title", "").lower()`: the stored title value
is returned even when it is `None` (the key is always present in the parsed
record), so a missing or non-string title raises `AttributeError`. -/
def pyLowerJson : Option Json → Except Unit (List Char)
  | some (.str s) => .ok (pyLower s)
  | _ => .error ()

/-- Everything the loop body of `process_urls` computes for one fresh URL
before touching the database, lines 101-160: fetch (modelled by the oracle
as the script blocks of the page, `none` for a fetch failure), JSON-LD
extraction, field projection, room extraction (line 126) and title lowering
(line 130).  Any failure or uncaught exception skips the URL; the second
component is the extracted room count and the third the lowered title. -/
def resolveUrl (fetchBlocks : List Char → Option (List ScriptBlock))
    (url : List Char) : Option (ParsedListing × Option Int × List Char) :=
  match fetchBlocks url with
  | none => none
  | some blocks =>
    match extract_json_ld blocks with
    | .error _ => none
    | .ok none => none
    | .ok (some j) =>
      match parse_listing j with
      | .error _ => none
      | .ok pd =>
        match extract_total_rooms pd.features pd.title pd.description with
        | .error _ => none
        | .ok rooms =>
          match pyLowerJson pd.title with
          | .error _ => none
          | .ok titleL => some (pd, rooms, titleL)

/-- One iteration of the loop of `process_urls`, lines 88-202.  The geocoder
is the oracle `geo` (applied when locality and region are truthy, returning
`none` on a geocoding miss or error); `persistFail url` injects a
`SQLAlchemyError` during the flush/insert/commit of that URL, whose handler
rolls the transaction back, leaving the store unchanged.  A successful
transaction commits the Property row and the Listing row referencing it
atomically and bumps the id counter. -/
def processUrl (fetchBlocks : List Char → Option (List ScriptBlock))
    (geo : Option Json → Option Json → Option (ℚ × ℚ))
    (persistFail : List Char → Bool)
    (s : Store) (url : List Char) : Store :=
  if hasListing s url then s
  else
    match resolveUrl fetchBlocks url with
    | none => s
    | some (pd, rooms, titleL) =>
      if persistFail url then s
      else
        let floor := extract_floor pd.features
        let ptype := inferType titleL (pyLower url)
        let location :=
          if (pd.location_locality.elim false jTruthy)
             && (pd.location_region.elim false jTruthy) then
            geo pd.location_locality pd.location_region
          else none
        let prop : PropertyRow :=
          ⟨s.nextId, ptype, pd.year_built, pd.usable_area_sqm, floor, rooms, location⟩
        let listing : ListingRow :=
          ⟨s.nextId, pd.price.getD 0, url, pd.description, "active".data⟩
        ⟨s.properties ++ [ prop ], s.listings ++ [ listing ], s.nextId + 1⟩

/-- Model of `pipeline.process_urls`: the URLs of the input list are
processed strictly in order against one store. -/
def process_urls (fetchBlocks : List Char → Option (List ScriptBlock))
    (geo : Option Json → Option Json → Option (ℚ × ℚ))
    (persistFail : List Char → Bool)
    (s : Store) (urls : List (List Char)) : Store :=
  urls.foldl (processUrl fetchBlocks geo persistFail) s

/-- A URL whose fetch/extract/parse/normalize chain succeeds (no skip, no
exception), independent of the store. -/
def chainOk (fetchBlocks : List Char → Option (List ScriptBlock)) (url : List Char) : Bool :=
  (resolveUrl fetchBlocks url).isSome

/-! ### Sample data for witnesses and counterexamples -/

/-- A well-formed Product listing object with offers, as embedded by the
site's pages. -/
def productJ : Json :=
  .obj [(typeKey, .str productStr), (offersKey, .obj [(priceKey, .str "100".data)]),
        (nameKey, .str "Apartament 2 camere".data)]

/-- A non-Product entity appearing as graph noise. -/
def personJ : Json := .obj [(typeKey, .str "Person".data)]

/-- One block whose graph bundles a noise entity and the Product. -/
def graphBlocks : List ScriptBlock :=
  [⟨some (.obj [(graphKey, .arr [personJ, productJ])]), none⟩]

/-- One block whose strictly parsed dict carries a non-iterable `@graph`. -/
def badGraphBlocks : List ScriptBlock := [⟨some (.obj [(graphKey, .num 5)]), none⟩]

/-- One block whose strict parse fails and whose repaired value is a list
containing the Product. -/
def repairedListBlocks : List ScriptBlock := [⟨none, some (.arr [productJ])⟩]

/-- An additional-property list with one pair whose two fields are present
but whose value is the empty string (falsy). -/
def falsyPairProps : List Json :=
  [.obj [(nameKey, .str "Etaj".data), (valueKey, .str "".data)]]

/-- An additional-property list mixing a kept pair, a non-dict entry and a
pair missing its value field. -/
def mixedProps : List Json :=
  [.obj [(nameKey, .str "A".data), (valueKey, .str "1".data)],
   .str "noise".data,
   .obj [(nameKey, .str "B".data)]]

/-- A fetch oracle whose every page holds one strictly parsed Product block. -/
def fetchW : List Char → Option (List ScriptBlock) := fun _ => some [⟨some productJ, none⟩]

/-- A fetch oracle that always fails. -/
def fetchNone : List Char → Option (List ScriptBlock) := fun _ => none

/-- A geocoder oracle that always misses. -/
def geoW : Option Json → Option Json → Option (ℚ × ℚ) := fun _ _ => none

/-- No injected persistence faults. -/
def pfW : List Char → Bool := fun _ => false

/-- A persistence fault injected on every URL. -/
def pfTrue : List Char → Bool := fun _ => true

/-- A URL list with a duplicate entry. -/
def urlsW : List (List Char) := ["u1".data, "u2".data, "u1".data]

/-- Whether a JSON value is a dict. -/
def isObjJ : Json → Bool
  | .obj _ => true
  | _ => false

/-! ### Helper lemmas -/

theorem processStrict_eq_spec (j : Json) (h : graphOk j = true) :
    processStrict j = .ok (specSelect j) := by
  cases j with
  | obj kvs =>
    by_cases hp : isProduct (.obj kvs) = true
    · simp [processStrict, specSelect, hp]
    · simp only [Bool.not_eq_true] at hp
      simp only [graphOk] at h
      cases hg : jlookup kvs graphKey with
      | none => simp [processStrict, specSelect, hp, hg]
      | some g =>
        cases g <;> simp_all [processStrict, specSelect, hp, hg, pyIter]
  | arr xs => simp [processStrict, specSelect, isProduct]
  | null => simp [processStrict, specSelect, isProduct]
  | bool b => simp [processStrict, specSelect, isProduct]
  | num q => simp [processStrict, specSelect, isProduct]
  | str s => simp [processStrict, specSelect, isProduct]

theorem extract_eq_spec_of_ok (blocks : List ScriptBlock)
    (hg : blocks.all blockGraphOk = true)
    (hr : blocks.all blockRepairOk = true) :
    extract_json_ld blocks = .ok (specExtract blocks) := by
  induction blocks with
  | nil => rfl
  | cons b rest ih =>
    simp only [List.all_cons, Bool.and_eq_true] at hg hr
    have ihr := ih hg.2 hr.2
    cases hs : b.strict with
    | some j =>
      have hgj : graphOk j = true := by
        have := hg.1
        simpa [blockGraphOk, hs] using this
      have hps := processStrict_eq_spec j hgj
      cases hsel : specSelect j with
      | some r =>
        simp [extract_json_ld, specExtract, hs, hps, hsel]
      | none =>
        simp [extract_json_ld, specExtract, hs, hps, hsel, ihr]
    | none =>
      cases hr2 : b.repaired with
      | none => simp [extract_json_ld, specExtract, hs, hr2, ihr]
      | some j =>
        have hbr : (isProduct j || (specSelect j).isNone) = true := by
          have := hr.1
          simpa [blockRepairOk, hs, hr2] using this
        rcases Bool.or_eq_true_iff.mp hbr with hpj | hnone
        · have hsel : specSelect j = some j := by simp [specSelect, hpj]
          simp [extract_json_ld, specExtract, hs, hr2, hpj, hsel]
        · have hsel : specSelect j = none := Option.isNone_iff_eq_none.mp hnone
          have hpj : isProduct j = false := by
            by_contra hc
            simp only [Bool.not_eq_false] at hc
            simp [specSelect, hc] at hsel
          simp [extract_json_ld, specExtract, hs, hr2, hpj, hsel, ihr]

theorem processUrl_of_hasListing (f : List Char → Option (List ScriptBlock))
    (g : Option Json → Option Json → Option (ℚ × ℚ)) (p : List Char → Bool)
    (s : Store) (u : List Char) (h : hasListing s u = true) :
    processUrl f g p s u = s := by
  simp [processUrl, h]

theorem processUrl_of_persistFail (f : List Char → Option (List ScriptBlock))
    (g : Option Json → Option Json → Option (ℚ × ℚ)) (p : List Char → Bool)
    (s : Store) (u : List Char) (h : p u = true) :
    processUrl f g p s u = s := by
  unfold processUrl
  split
  · rfl
  · cases hr : resolveUrl f u with
    | none => rfl
    | some r => obtain ⟨pd, rooms, titleL⟩ := r; simp [h]

theorem hasListing_processUrl (f : List Char → Option (List ScriptBlock))
    (g : Option Json → Option Json → Option (ℚ × ℚ)) (p : List Char → Bool)
    (s : Store) (u x : List Char) (h : hasListing s u = true) :
    hasListing (processUrl f g p s x) u = true := by
  unfold processUrl
  split
  · exact h
  · cases hr : resolveUrl f x with
    | none => exact h
    | some r =>
      obtain ⟨pd, rooms, titleL⟩ := r
      by_cases hp : p x = true
      · simpa [hp] using h
      · simp only [Bool.not_eq_true] at hp
        simp only [hp, if_false]
        simp only [hasListing, List.any_append] at h ⊢
        simp [h]

theorem hasListing_process_urls (f : List Char → Option (List ScriptBlock))
    (g : Option Json → Option Json → Option (ℚ × ℚ)) (p : List Char → Bool)
    (s : Store) (u : List Char) (urls : List (List Char)) (h : hasListing s u = true) :
    hasListing (process_urls f g p s urls) u = true := by
  induction urls generalizing s with
  | nil => exact h
  | cons x rest ih =>
    exact ih (processUrl f g p s x) (hasListing_processUrl f g p s u x h)

theorem hasListing_processUrl_self (f : List Char → Option (List ScriptBlock))
    (g : Option Json → Option Json → Option (ℚ × ℚ)) (p : List Char → Bool)
    (s : Store) (u : List Char) (hc : chainOk f u = true) (hp : p u = false) :
    hasListing (processUrl f g p s u) u = true := by
  by_cases hl : hasListing s u = true
  · simpa [processUrl_of_hasListing f g p s u hl] using hl
  · simp only [Bool.not_eq_true] at hl
    unfold processUrl
    simp only [hl, if_false]
    cases hr : resolveUrl f u with
    | none => simp [chainOk, hr] at hc
    | some r =>
      obtain ⟨pd, rooms, titleL⟩ := r
      simp [hp, hasListing, List.any_append]

theorem hasListing_run_of_mem (f : List Char → Option (List ScriptBlock))
    (g : Option Json → Option Json → Option (ℚ × ℚ)) (p : List Char → Bool)
    (s : Store) (u : List Char) (urls : List (List Char)) (hu : u ∈ urls)
    (hc : chainOk f u = true) (hp : p u = false) :
    hasListing (process_urls f g p s urls) u = true := by
  induction urls generalizing s with
  | nil => cases hu
  | cons x rest ih =>
    rcases List.mem_cons.mp hu with rfl | hmem
    · exact hasListing_process_urls f g p _ u rest
        (hasListing_processUrl_self f g p s u hc hp)
    · exact ih (processUrl f g p s x) hmem

theorem countListings_processUrl_le (f : List Char → Option (List ScriptBlock))
    (g : Option Json → Option Json → Option (ℚ × ℚ)) (p : List Char → Bool)
    (s : Store) (x u : List Char) (h : countListings s u ≤ 1) :
    countListings (processUrl f g p s x) u ≤ 1 := by
  by_cases hl : hasListing s x = true
  · simpa [processUrl_of_hasListing f g p s x hl] using h
  · simp only [Bool.not_eq_true] at hl
    unfold processUrl
    simp only [hl, if_false]
    cases hr : resolveUrl f x with
    | none => exact h
    | some r =>
      obtain ⟨pd, rooms, titleL⟩ := r
      by_cases hp : p x = true
      · simpa [hp] using h
      · simp only [Bool.not_eq_true] at hp
        simp only [hp, if_false]
        simp only [countListings, List.countP_append, List.countP_cons, List.countP_nil]
        by_cases hux : x = u
        · subst hux
          have hzero : s.listings.countP (fun l => l.listing_url == x) = 0 := by
            rw [List.countP_eq_zero]
            intro a ha
            simp only [hasListing, List.any_eq_false] at hl
            simpa using hl a ha
          simp [hzero]
        · have hbeq : (x == u) = false := by simpa using hux
          simpa [countListings, hbeq] using h

theorem countListings_run_le (f : List Char → Option (List ScriptBlock))
    (g : Option Json → Option Json → Option (ℚ × ℚ)) (p : List Char → Bool)
    (s : Store) (u : List Char) (urls : List (List Char)) (h : countListings s u ≤ 1) :
    countListings (process_urls f g p s urls) u ≤ 1 := by
  induction urls generalizing s with
  | nil => exact h
  | cons x rest ih =>
    exact ih (processUrl f g p s x) (countListings_processUrl_le f g p s x u h)

theorem run_fixed_of_all_present (f : List Char → Option (List ScriptBlock))
    (g : Option Json → Option Json → Option (ℚ × ℚ)) (p : List Char → Bool)
    (s : Store) (urls : List (List Char)) (h : ∀ x ∈ urls, hasListing s x = true) :
    process_urls f g p s urls = s := by
  induction urls with
  | nil => rfl
  | cons x rest ih =>
    have hx := processUrl_of_hasListing f g p s x (h x (by simp))
    show process_urls f g p (processUrl f g p s x) rest = s
    rw [hx]
    exact ih (fun y hy => h y (by simp [hy]))

theorem pairing_processUrl (f : List Char → Option (List ScriptBlock))
    (g : Option Json → Option Json → Option (ℚ × ℚ)) (p : List Char → Bool)
    (s : Store) (x : List Char)
    (h : s.listings.map (fun l => l.property_id) = s.properties.map (fun q => q.id)) :
    (processUrl f g p s x).listings.map (fun l => l.property_id)
      = (processUrl f g p s x).properties.map (fun q => q.id) := by
  unfold processUrl
  split
  · exact h
  · cases hr : resolveUrl f x with
    | none => exact h
    | some r =>
      obtain ⟨pd, rooms, titleL⟩ := r
      by_cases hp : p x = true
      · simpa [hp] using h
      · simp only [Bool.not_eq_true] at hp
        simp [hp, List.map_append, h]

theorem pairing_process_urls (f : List Char → Option (List ScriptBlock))
    (g : Option Json → Option Json → Option (ℚ × ℚ)) (p : List Char → Bool)
    (s : Store) (urls : List (List Char))
    (h : s.listings.map (fun l => l.property_id) = s.properties.map (fun q => q.id)) :
    (process_urls f g p s urls).listings.map (fun l => l.property_id)
      = (process_urls f g p s urls).properties.map (fun q => q.id) := by
  induction urls generalizing s with
  | nil => exact h
  | cons x rest ih =>
    exact ih (processUrl f g p s x) (pairing_processUrl f g p s x h)

theorem setAdd_nodup (acc : List (List Char)) (u : List Char) (h : acc.Nodup) :
    (setAdd acc u).Nodup := by
  unfold setAdd
  split
  · exact h
  · rename_i hc
    rw [List.nodup_append]
    refine ⟨h, List.nodup_singleton u, ?_⟩
    intro a ha hmem
    have : a = u := by simpa using hmem
    subst this
    exact absurd (by simpa using ha) (by simpa using hc)

theorem setUnion_nodup (acc : List (List Char)) (xs : List (List Char)) (h : acc.Nodup) :
    (setUnion acc xs).Nodup := by
  induction xs generalizing acc with
  | nil => exact h
  | cons x rest ih => exact ih (setAdd acc x) (setAdd_nodup acc x h)

theorem extract_urls_nodup (hrefs : List (List Char)) :
    (extract_urls_from_html hrefs).Nodup := by
  unfold extract_urls_from_html
  have general : ∀ (hs : List (List Char)) (acc : List (List Char)), acc.Nodup →
      (hs.foldl (fun acc h => if qualifiesHref h then setAdd acc (absolutize h) else acc) acc).Nodup := by
    intro hs
    induction hs with
    | nil => intro acc ha; exact ha
    | cons x rest ih =>
      intro acc ha
      by_cases hq : qualifiesHref x = true
      · simpa [hq] using ih (setAdd acc (absolutize x)) (setAdd_nodup acc (absolutize x) ha)
      · simp only [Bool.not_eq_true] at hq
        simpa [hq] using ih acc ha
  exact general hrefs [] List.nodup_nil

theorem crawler_run_nodup (pages : List (List (List Char))) :
    (crawler_run pages).Nodup := by
  unfold crawler_run
  have general : ∀ (ps : List (List (List Char))) (acc : List (List Char)), acc.Nodup →
      (ps.foldl (fun acc page => setUnion acc (extract_urls_from_html page)) acc).Nodup := by
    intro ps
    induction ps with
    | nil => intro acc ha; exact ha
    | cons x rest ih => intro acc ha; exact ih _ (setUnion_nodup acc _ ha)
  exact general pages [] List.nodup_nil

theorem countP_le_one_of_nodup (l : List (List Char)) (u : List Char) (h : l.Nodup) :
    l.countP (fun v => v == u) ≤ 1 := by
  induction l with
  | nil => simp
  | cons a rest ih =>
    rw [List.countP_cons]
    rcases List.nodup_cons.mp h with ⟨hna, hrest⟩
    by_cases hau : (a == u) = true
    · have : a = u := by simpa using hau
      subst this
      have hz : rest.countP (fun v => v == a) = 0 := by
        rw [List.countP_eq_zero]
        intro b hb
        have hne : b ≠ a := by rintro rfl; exact hna hb
        simpa using hne
      simp [hz]
    · simp only [Bool.not_eq_true] at hau
      simpa [hau] using ih hrest

theorem dictAssign_fresh (acc : List (List Char × List Char)) (k v : List Char)
    (h : ∀ p ∈ acc, p.1 ≠ k) : dictAssign acc k v = acc ++ [(k, v)] := by
  unfold dictAssign
  have hany : acc.any (fun p => p.1 == k) = false := by
    rw [List.any_eq_false]
    intro p hp
    simpa using h p hp
  simp [hany]

theorem flattenAux_eq_spec (props : List Json) (acc : List (List Char × List Char))
    (h : (acc.map Prod.fst ++ (flattenClaimAmended props).map Prod.fst).Nodup) :
    flattenAux acc props = acc ++ flattenClaimAmended props := by
  induction props generalizing acc with
  | nil => simp [flattenAux, flattenClaimAmended]
  | cons p rest ih =>
    cases p with
    | obj kvs =>
      cases hn : jlookup kvs nameKey with
      | none =>
        have hclaim : flattenClaimAmended (Json.obj kvs :: rest) = flattenClaimAmended rest := by
          simp [flattenClaimAmended, hn]
        rw [hclaim] at h
        simpa [flattenAux, hn, hclaim] using ih acc h
      | some n =>
        cases hv : jlookup kvs valueKey with
        | none =>
          have hclaim : flattenClaimAmended (Json.obj kvs :: rest) = flattenClaimAmended rest := by
            simp [flattenClaimAmended, hn, hv]
          rw [hclaim] at h
          simpa [flattenAux, hn, hv, hclaim] using ih acc h
        | some v =>
          by_cases ht : (jTruthy n && jTruthy v) = true
          · have htB := ht
            simp only [Bool.and_eq_true] at ht
            obtain ⟨ht1, ht2⟩ := ht
            have hclaim : flattenClaimAmended (Json.obj kvs :: rest)
                = (pyStr n, pyStr v) :: flattenClaimAmended rest := by
              simp [flattenClaimAmended, List.filterMap_cons, hn, hv, ht1, ht2]
            rw [hclaim] at h
            have hfresh : ∀ q ∈ acc, q.1 ≠ pyStr n := by
              intro q hq
              intro hbad
              have hmem1 : q.1 ∈ acc.map Prod.fst := List.mem_map_of_mem Prod.fst hq
              have hnd := h
              rw [List.nodup_append] at hnd
              exact hnd.2.2 hmem1 (by simp [hbad])
            have hd := dictAssign_fresh acc (pyStr n) (pyStr v) hfresh
            have hih : ((acc ++ [(pyStr n, pyStr v)]).map Prod.fst
                ++ (flattenClaimAmended rest).map Prod.fst).Nodup := by
              simpa [List.append_assoc] using h
            have hrec := ih (acc ++ [(pyStr n, pyStr v)]) hih
            simp only [flattenAux, hn, hv, htB, if_true, hd, hclaim]
            rw [hrec]
            simp
          · simp only [Bool.not_eq_true] at ht
            have hcond : ¬(jTruthy n = true ∧ jTruthy v = true) := by
              intro hc
              have hcc : (jTruthy n && jTruthy v) = true := by rw [hc.1, hc.2]; rfl
              rw [ht] at hcc
              exact Bool.false_ne_true hcc
            have hclaim : flattenClaimAmended (Json.obj kvs :: rest) = flattenClaimAmended rest := by
              simp [flattenClaimAmended, List.filterMap_cons, hn, hv, hcond]
            rw [hclaim] at h
            simpa [flattenAux, hn, hv, ht, hclaim] using ih acc h
    | null =>
      simpa [flattenAux, flattenClaimAmended] using ih acc (by simpa [flattenClaimAmended] using h)
    | bool b =>
      simpa [flattenAux, flattenClaimAmended] using ih acc (by simpa [flattenClaimAmended] using h)
    | num q =>
      simpa [flattenAux, flattenClaimAmended] using ih acc (by simpa [flattenClaimAmended] using h)
    | str s =>
      simpa [flattenAux, flattenClaimAmended] using ih acc (by simpa [flattenClaimAmended] using h)
    | arr xs =>
      simpa [flattenAux, flattenClaimAmended] using ih acc (by simpa [flattenClaimAmended] using h)

theorem extract_floor_eq_spec (fs : List (List Char × List Char)) :
    extract_floor fs = floorSpecAmended (lookupF fs etajKey) := by
  cases h : lookupF fs etajKey <;> simp [extract_floor, floorSpecAmended, h]

theorem roomsTextStage_str (s : List Char) (next : Except Unit (Option Int)) :
    roomsTextStage (some (.str s)) next
      = match findRooms s with
        | some n => .ok (some n)
        | none => next := by
  by_cases hs : s.isEmpty = true
  · have : s = [] := List.isEmpty_iff.mp hs
    subst this
    simp [roomsTextStage, jTruthy]
    rfl
  · simp [roomsTextStage, jTruthy, hs]

theorem rooms_eq_spec (fs : List (List Char × List Char)) (t d : List Char) :
    extract_total_rooms fs (some (.str t)) (some (.str d))
      = .ok (roomsSpec (lookupF fs numarCamereKey) t d) := by
  have hstages : roomsTextStage (some (.str t)) (roomsTextStage (some (.str d)) (.ok none))
      = .ok ((findRooms t).orElse fun _ => findRooms d) := by
    rw [roomsTextStage_str, roomsTextStage_str]
    cases hft : findRooms t with
    | some n => simp [Option.orElse]
    | none =>
      cases hfd : findRooms d with
      | some n => simp [Option.orElse]
      | none => simp [Option.orElse]
  unfold extract_total_rooms roomsSpec
  cases hv : lookupF fs numarCamereKey with
  | none => simpa using hstages
  | some v =>
    by_cases hve : v.isEmpty = true
    · have : v = [] := List.isEmpty_iff.mp hve
      subst this
      have : firstNat [] = none := rfl
      simpa [this] using hstages
    · simp only [hve, if_false]
      cases hfn : firstNat v with
      | some n => simp [hfn, Option.orElse]
      | none => simpa [hfn] using hstages

theorem isDig_pyUpperChar (c : Char) : isDig (pyUpperChar c) = isDig c := by
  unfold pyUpperChar
  split <;> rfl

theorem mem_replaceSubAux (pat rep s : List Char) (k : Nat) (c : Char)
    (h : c ∈ replaceSubAux pat rep k s) : c ∈ rep ∨ c ∈ s := by
  induction s generalizing k with
  | nil => simp [replaceSubAux] at h
  | cons a rest ih =>
    cases k with
    | succ m =>
      rcases ih m (by simpa [replaceSubAux] using h) with hr | hs
      · exact Or.inl hr
      · exact Or.inr (List.mem_cons_of_mem a hs)
    | zero =>
      rw [replaceSubAux] at h
      split at h
      · rcases List.mem_append.mp h with hr | hx
        · exact Or.inl hr
        · rcases ih _ hx with hr | hs
          · exact Or.inl hr
          · exact Or.inr (List.mem_cons_of_mem a hs)
      · rcases List.mem_cons.mp h with rfl | hx
        · exact Or.inr (List.mem_cons_self c rest)
        · rcases ih 0 hx with hr | hs
          · exact Or.inl hr
          · exact Or.inr (List.mem_cons_of_mem a hs)

theorem mem_pyStrip (s : List Char) (c : Char) (h : c ∈ pyStrip s) : c ∈ s := by
  unfold pyStrip at h
  rw [List.mem_reverse] at h
  have h1 := (List.dropWhile_sublist (l := (s.dropWhile isPySpace).reverse) isPySpace).mem h
  rw [List.mem_reverse] at h1
  exact (List.dropWhile_sublist (l := s) isPySpace).mem h1

theorem mem_firstTok (s t : List Char) (c : Char) (hf : firstTok s = some t)
    (h : c ∈ t) : c ∈ s := by
  induction s with
  | nil => simp [firstTok] at hf
  | cons a rest ih =>
    rw [firstTok] at hf
    split at hf
    · have ht := Option.some_injective _ hf
      subst ht
      exact (List.takeWhile_sublist (l := a :: rest) _).mem h
    · exact List.mem_cons_of_mem a (ih hf)

theorem floatOfTok_none_of_noDigits (t : List Char) (h : ∀ c ∈ t, isDig c = false) :
    floatOfTok t = none := by
  cases t with
  | nil => rfl
  | cons a rest =>
    have ha : isDig a = false := h a (List.mem_cons_self a rest)
    have htw : (a :: rest).takeWhile isDig = [] := by
      simp [List.takeWhile_cons, ha]
    have hdw : (a :: rest).dropWhile isDig = a :: rest := by
      simp [List.dropWhile_cons, ha]
    by_cases hdot : a = '.'
    · subst hdot
      cases rest with
      | nil => rfl
      | cons b rs =>
        have hb : isDig b = false := h b (List.mem_cons_of_mem _ (List.mem_cons_self b rs))
        unfold floatOfTok
        rw [htw, hdw]
        simp [List.all_cons, hb]
    · unfold floatOfTok
      rw [htw, hdw]
      split
      · rename_i heq
        exact absurd heq (List.cons_ne_nil a rest)
      · rename_i fr heq
        injection heq with h1 h2
        exact absurd h1 hdot
      · rfl

theorem noDigits_sepNormalize (t : List Char) (h : ∀ c ∈ t, isDig c = false) :
    ∀ c ∈ sepNormalize t, isDig c = false := by
  intro c hc
  unfold sepNormalize at hc
  have hmap : ∀ d ∈ t, isDig (if d = ',' then '.' else d) = false := by
    intro d hd
    by_cases hdc : d = ','
    · simp [hdc]
      rfl
    · simpa [hdc] using h d hd
  split at hc
  · rcases List.mem_map.mp hc with ⟨d, hd, rfl⟩
    exact hmap d (List.mem_of_mem_filter hd)
  · split at hc
    · rcases List.mem_map.mp hc with ⟨d, hd, rfl⟩
      exact hmap d hd
    · exact h c (List.mem_of_mem_filter hc)

theorem clean_price_none_of_noDigits (s : List Char) (h : ∀ c ∈ s, isDig c = false) :
    clean_price s = none := by
  by_cases hs : s.isEmpty = true
  · simp [clean_price, hs]
  · have h1 : ∀ c ∈ pyUpper s, isDig c = false := by
      intro c hc
      rcases List.mem_map.mp hc with ⟨d, hd, rfl⟩
      rw [isDig_pyUpperChar]
      exact h d hd
    have h2 : ∀ c ∈ replaceSub eurStr [] (pyUpper s), isDig c = false := by
      intro c hc
      unfold replaceSub at hc
      simp only [show eurStr.isEmpty = false from rfl, if_false] at hc
      rcases mem_replaceSubAux eurStr [] (pyUpper s) 0 c hc with hr | hm
      · simp at hr
      · exact h1 c hm
    have h3 : ∀ c ∈ (replaceSub eurStr [] (pyUpper s)).filter (fun c => c != '€'),
        isDig c = false := fun c hc => h2 c (List.mem_of_mem_filter hc)
    have h4 : ∀ c ∈ pyStrip ((replaceSub eurStr [] (pyUpper s)).filter (fun c => c != '€')),
        isDig c = false := fun c hc => h3 c (mem_pyStrip _ c hc)
    have h5 := noDigits_sepNormalize _ h4
    unfold clean_price
    simp only [hs, if_false]
    cases hft : firstTok (sepNormalize (pyStrip
        ((replaceSub eurStr [] (pyUpper s)).filter (fun c => c != '€')))) with
    | none => rfl
    | some tok =>
      have htok : ∀ c ∈ tok, isDig c = false := fun c hc => h5 c (mem_firstTok _ _ c hft hc)
      simp [floatOfTok_none_of_noDigits tok htok]

/-! ### Claim theorems -/

/-- C4, counterexample: the claim maps the attic keyword `"Mansardă"` to 99,
but `extract_floor` lowers the value to `"mansardă"`, which does not contain
the ASCII keyword `"mansarda"`, and the value holds no digit, so the result
is null rather than 99. -/
theorem claim_C4_counterexample :
    extract_floor [(etajKey, "Mansardă".data)] = none
    ∧ extract_floor [(etajKey, "Mansardă".data)] ≠ some 99 := by
  exact ⟨by decide, by decide⟩

/-- C4 (amended): case-insensitive over the `Etaj` value, a value containing
the ground-floor keyword maps to 0, the basement keyword to -1, and the
ASCII attic keyword `"mansarda"` to 99; otherwise the first signed integer
substring is returned; an absent, empty, or unparseable value yields null —
and the diacritic spelling `"Mansardă"` matches no keyword and yields null.
The first conjunct settles the whole mapping against `floorSpecAmended`,
the claim-side rule; the rest instantiate the claim's table. -/
theorem claim_C4_floor_mapping_amended :
    (∀ fs, extract_floor fs = floorSpecAmended (lookupF fs etajKey))
    ∧ extract_floor [(etajKey, "Parter".data)] = some 0
    ∧ extract_floor [(etajKey, "Demisol".data)] = some (-1)
    ∧ extract_floor [(etajKey, "mansarda".data)] = some 99
    ∧ extract_floor [(etajKey, "Mansarda".data)] = some 99
    ∧ extract_floor [(etajKey, "3".data)] = some 3
    ∧ extract_floor [(etajKey, "Etaj 3 din 8".data)] = some 3
    ∧ extract_floor [(etajKey, "".data)] = none
    ∧ extract_floor [] = none
    ∧ extract_floor [(etajKey, "Mansardă".data)] = none :=
  ⟨extract_floor_eq_spec, by decide, by decide, by decide, by decide, by decide,
   by decide, by decide, by decide, by decide⟩

/-- C6: the room extractor tries the structured `"Numar camere"` feature,
then the title pattern, then the description pattern, first success winning;
the first conjunct proves the full priority order against the claim-side
`roomsSpec` for string-valued title and description, and the remaining
conjuncts instantiate the claim's examples (structured field beats the
conflicting title phrase; the title phrase alone wins; no match anywhere
yields null). -/
theorem claim_C6_room_count_priority :
    (∀ fs t d, extract_total_rooms fs (some (.str t)) (some (.str d))
        = .ok (roomsSpec (lookupF fs numarCamereKey) t d))
    ∧ extract_total_rooms [(numarCamereKey, "2".data)]
        (some (.str "Apartament 3 camere".data)) (some (.str "".data)) = .ok (some 2)
    ∧ extract_total_rooms [] (some (.str "Apartament 3 camere".data))
        (some (.str "".data)) = .ok (some 3)
    ∧ extract_total_rooms [] (some (.str "fara numar".data))
        (some (.str "nimic util".data)) = .ok none :=
  ⟨rooms_eq_spec, rfl, rfl, rfl⟩

/-- C9, counterexample: the claim says a pair with both `name` and `value`
fields present is always kept, but `_flatten_features` guards with Python
truthiness (`if name and value:`), so a pair whose value is the empty string
is dropped; `flattenClaim` is the claim-side rule as stated. -/
theorem claim_C9_counterexample :
    flatten_features (.arr falsyPairProps) = []
    ∧ flattenClaim falsyPairProps = [("Etaj".data, "".data)]
    ∧ flatten_features (.arr falsyPairProps) ≠ flattenClaim falsyPairProps := by
  exact ⟨by decide, by decide, by decide⟩

/-- C9 (amended): the flattener keeps exactly the entries that are dicts
carrying both a `name` and a `value` field with truthy values (non-empty,
non-zero, non-null), string-coerced, in order — stated for inputs whose kept
names are pairwise distinct, where Python dict assignment is plain
insertion. -/
theorem claim_C9_feature_flattening_amended (props : List Json)
    (h : ((flattenClaimAmended props).map Prod.fst).Nodup) :
    flatten_features (.arr props) = flattenClaimAmended props := by
  have := flattenAux_eq_spec props [] (by simpa using h)
  simpa [flatten_features] using this

/-- C9 witness: the amended flattening rule evaluated on a mixed input. -/
theorem claim_C9_witness :
    flatten_features (.arr mixedProps) = [("A".data, "1".data)] := by
  have h := claim_C9_feature_flattening_amended mixedProps (by decide)
  rw [h]
  rfl

/-- C3, counterexample: on a document whose only block strictly parses to a
dict with the non-iterable `@graph` value 5, iterating `data["@graph"]`
raises `TypeError` — which `except json.JSONDecodeError` does not catch — so
extraction raises instead of returning None as the claim requires. -/
theorem claim_C3_counterexample :
    extract_json_ld badGraphBlocks = .error ()
    ∧ specExtract badGraphBlocks = none
    ∧ extract_json_ld badGraphBlocks ≠ .ok (specExtract badGraphBlocks) := by
  refine ⟨rfl, rfl, ?_⟩
  intro h
  rw [show extract_json_ld badGraphBlocks = .error () from rfl,
      show specExtract badGraphBlocks = none from rfl] at h
  exact Except.noConfusion h

/-- C3 (amended): extraction returns the object of the first block, in
document order, that is or contains — via a top-level list or a nested
`@graph` array — a dict with `@type` `"Product"` and an `"offers"` key, and
returns None when no block yields one, provided every strictly parsed
`@graph` value is an array (otherwise the code raises `TypeError`) and every
block needing the repair pass repairs to a direct Product dict or to a value
containing no accepted object (the repair path checks only the top-level
dict shape, see C5). -/
theorem claim_C3_target_selection_amended (blocks : List ScriptBlock)
    (hg : blocks.all blockGraphOk = true)
    (hr : blocks.all blockRepairOk = true) :
    extract_json_ld blocks = .ok (specExtract blocks) :=
  extract_eq_spec_of_ok blocks hg hr

/-- C3 witness: on a document with a structured-data graph containing one
non-Product entity and one Product entity with offers, extraction returns
the Product entity. -/
theorem claim_C3_witness :
    extract_json_ld graphBlocks = .ok (some productJ) := by
  have h := claim_C3_target_selection_amended graphBlocks (by decide) (by decide)
  rw [h]
  rfl

/-- C5, counterexample: a block whose strict parse fails and whose repaired
value is a list containing a Product-with-offers dict is skipped by the code
(extraction yields None), even though the target-selection rule accepts that
repaired value — the repair path checks only the top-level dict shape. -/
theorem claim_C5_counterexample :
    extract_json_ld repairedListBlocks = .ok none
    ∧ specSelect (.arr [productJ]) = some productJ := ⟨rfl, rfl⟩

/-- C5 (amended): for a block whose strict parse fails, the repaired value is
accepted only when it is itself a dict whose `@type` is `"Product"` carrying
an `"offers"` key; a repaired list or a repaired dict with a Product inside
`@graph` is not accepted; in every non-accepted case (including a failed
repair) the block is skipped non-fatally and extraction continues with the
next block. -/
theorem claim_C5_repair_pass_amended (b : ScriptBlock) (rest : List ScriptBlock)
    (h : b.strict = none) :
    extract_json_ld (b :: rest)
      = match b.repaired with
        | some j => if isProduct j then .ok (some j) else extract_json_ld rest
        | none => extract_json_ld rest := by
  cases hr : b.repaired <;> simp [extract_json_ld, h, hr]

/-- C5 witness: a repaired block that is directly a Product dict is accepted. -/
theorem claim_C5_witness :
    extract_json_ld [⟨none, some productJ⟩] = .ok (some productJ) := by
  have h := claim_C5_repair_pass_amended ⟨none, some productJ⟩ [] rfl
  rw [h]
  rfl

/-- C7, counterexample: the claim says an href with no scheme is treated as
a relative path under the domain, but the code's test for an absolute URL is
`href.startswith("http")`, so the schemeless qualifying href
`"httpdocs/anunt/x.html"` passes through unchanged instead of being
domain-prefixed. -/
theorem claim_C7_counterexample :
    qualifiesHref "httpdocs/anunt/x.html".data = true
    ∧ absolutize "httpdocs/anunt/x.html".data = "httpdocs/anunt/x.html".data
    ∧ absolutize "httpdocs/anunt/x.html".data
        ≠ publiDomain ++ '/' :: "httpdocs/anunt/x.html".data := by
  exact ⟨by decide, by decide, by decide⟩

/-- C7 (amended): for every qualifying href, normalization follows the
code's startswith tests — a root-relative href is prefixed with the site
domain, an href starting with `"http"` (the code's absoluteness test,
whether or not the href actually carries a scheme, so also for schemeless
hrefs like `"httpdocs/anunt/x.html"`) passes through unchanged, and every
other href is treated as a relative path under the domain; this is proved
universally as `absolutize = absolutizeSpec`, the claim-side statement of
the amended rule, with the concrete table instantiating each case; across
all crawled pages the accumulated result is a duplicate-free set with
uniqueness by exact string, so two pages linking the same listing contribute
one entry. -/
theorem claim_C7_url_normalization_amended :
    (∀ h : List Char, absolutize h = absolutizeSpec h)
    ∧ absolutize "/anunt/x.html".data = "https://www.publi24.ro/anunt/x.html".data
    ∧ absolutize "anunt/x.html".data = "https://www.publi24.ro/anunt/x.html".data
    ∧ absolutize "https://www.publi24.ro/anunt/x.html".data
        = "https://www.publi24.ro/anunt/x.html".data
    ∧ absolutize "httpdocs/anunt/x.html".data = "httpdocs/anunt/x.html".data
    ∧ (∀ pages : List (List (List Char)), (crawler_run pages).Nodup)
    ∧ (∀ (pages : List (List (List Char))) (u : List Char),
        (crawler_run pages).countP (fun v => v == u) ≤ 1)
    ∧ crawler_run [["/anunt/x.html".data], ["/anunt/x.html".data]]
        = ["https://www.publi24.ro/anunt/x.html".data]
    ∧ extract_urls_from_html ["/other/x.html".data] = [] := by
  refine ⟨?_, by decide, by decide, by decide, by decide, crawler_run_nodup, ?_,
    by decide, by decide⟩
  · intro h
    unfold absolutize absolutizeSpec
    by_cases h1 : startsWithL [ '/' ] h = true
    · simp [h1]
    · simp only [Bool.not_eq_true] at h1
      by_cases h2 : startsWithL ('h' :: 't' :: 't' :: 'p' :: []) h = true
      · simp [h1, h2]
      · simp only [Bool.not_eq_true] at h2
        simp [h1, h2]
  · intro pages u
    exact countP_le_one_of_nodup (crawler_run pages) u (crawler_run_nodup pages)

/-- C8: `clean_price` maps `"100.000 EUR"` to 100000.0 and both
`"100.000,50"` and `"100000,50"` to 100000.50 (dots are thousands
separators, the comma the decimal mark), and yields null on the empty
string and on any string containing no digit (no parseable number). -/
theorem claim_C8_price_cleaning (s : List Char) (h : ∀ c ∈ s, isDig c = false) :
    clean_price "100.000 EUR".data = some 100000
    ∧ clean_price "100.000,50".data = some (mkRat 200001 2)
    ∧ clean_price "100000,50".data = some (mkRat 200001 2)
    ∧ (mkRat 200001 2 : ℚ) = 200001 / 2
    ∧ clean_price "".data = none
    ∧ clean_price s = none :=
  ⟨by decide, by decide, by decide, by norm_num [mkRat, Rat.normalize],
   by decide, clean_price_none_of_noDigits s h⟩

/-- C8 witness: the price-cleaning table evaluated, with the digit-free
string `"abc"` as the unparseable input. -/
theorem claim_C8_witness :
    clean_price "100.000 EUR".data = some 100000
    ∧ clean_price "100.000,50".data = some (mkRat 200001 2)
    ∧ clean_price "100000,50".data = some (mkRat 200001 2)
    ∧ (mkRat 200001 2 : ℚ) = 200001 / 2
    ∧ clean_price "".data = none
    ∧ clean_price "abc".data = none :=
  claim_C8_price_cleaning "abc".data (by decide)

/-- C10 (implicit): field projection is not total on accepted objects — for
any dict accepted by the selection rule whose `offers` value is the empty
list or a list whose first element is not a dict, and likewise when the
offers dict's `availableAtOrFrom` is a list whose first element is not a
dict, `parse_listing` raises (`.get` on a non-dict) instead of returning a
flat record. -/
theorem claim_C10_projection_not_total (kvs : List (List Char × Json))
    (hacc : isProduct (.obj kvs) = true)
    (hbad : jlookup kvs offersKey = some (.arr [])
      ∨ (∃ x xs, jlookup kvs offersKey = some (.arr (x :: xs)) ∧ isObjJ x = false)
      ∨ (∃ okvs a as, jlookup kvs offersKey = some (.obj okvs)
          ∧ jlookup okvs availKey = some (.arr (a :: as)) ∧ isObjJ a = false)) :
    parse_listing (.obj kvs) = .error () := by
  rcases hbad with h1 | ⟨x, xs, h2, hx⟩ | ⟨okvs, a, as, h3, h4, ha⟩
  · simp [parse_listing, h1, firstIfList]
  · cases x <;> simp [parse_listing, h2, firstIfList] <;> simp [isObjJ] at hx
  · cases a <;> simp [parse_listing, h3, h4, firstIfList] <;> simp [isObjJ] at ha

/-- C10 witness: an accepted Product whose `offers` is the empty list makes
`parse_listing` raise. -/
theorem claim_C10_witness :
    parse_listing (.obj [(typeKey, .str productStr), (offersKey, .arr [])]) = .error () :=
  claim_C10_projection_not_total [(typeKey, .str productStr), (offersKey, .arr [])]
    (by decide) (Or.inl rfl)

/-- C1: idempotent ingestion — starting from the empty store, when every URL
of the list resolves (fetch, extraction, projection and normalization all
succeed) and no persistence fault is injected, each listed URL ends with
exactly one Listing row; running the whole loop a second time against the
resulting store changes nothing (every URL is already present and is
skipped); and the skip happens before fetching: the second-run step for a
present URL leaves the store unchanged under arbitrary fetch, geocode and
fault oracles. -/
theorem claim_C1_idempotent_ingestion
    (fetch fetch2 : List Char → Option (List ScriptBlock))
    (geo geo2 : Option Json → Option Json → Option (ℚ × ℚ))
    (pf pf2 : List Char → Bool)
    (urls : List (List Char)) (u : List Char)
    (hok : urls.all (fun x => chainOk fetch x && !(pf x)) = true)
    (hu : urls.contains u = true) :
    countListings (process_urls fetch geo pf emptyStore urls) u = 1
    ∧ process_urls fetch geo pf (process_urls fetch geo pf emptyStore urls) urls
        = process_urls fetch geo pf emptyStore urls
    ∧ processUrl fetch2 geo2 pf2 (process_urls fetch geo pf emptyStore urls) u
        = process_urls fetch geo pf emptyStore urls := by
  rw [List.all_eq_true] at hok
  have hchain : ∀ x ∈ urls, chainOk fetch x = true := by
    intro x hx
    have := hok x hx
    rw [Bool.and_eq_true] at this
    exact this.1
  have hnf : ∀ x ∈ urls, pf x = false := by
    intro x hx
    have := hok x hx
    rw [Bool.and_eq_true] at this
    simpa using this.2
  have hmem : u ∈ urls := by simpa using hu
  have hasL : hasListing (process_urls fetch geo pf emptyStore urls) u = true :=
    hasListing_run_of_mem fetch geo pf emptyStore u urls hmem (hchain u hmem) (hnf u hmem)
  refine ⟨?_, ?_, ?_⟩
  · have hle : countListings (process_urls fetch geo pf emptyStore urls) u ≤ 1 :=
      countListings_run_le fetch geo pf emptyStore u urls (by simp [countListings, emptyStore])
    have hpos : 0 < countListings (process_urls fetch geo pf emptyStore urls) u := by
      unfold hasListing at hasL
      rw [List.any_eq_true] at hasL
      obtain ⟨l, hl, hbeq⟩ := hasL
      unfold countListings
      rw [List.countP_pos]
      exact ⟨l, hl, hbeq⟩
    omega
  · exact run_fixed_of_all_present fetch geo pf _ urls
      (fun x hx => hasListing_run_of_mem fetch geo pf emptyStore x urls hx
        (hchain x hx) (hnf x hx))
  · exact processUrl_of_hasListing fetch2 geo2 pf2 _ u hasL

/-- C1 witness: a three-entry URL list with a duplicate, a fetch oracle
returning a Product block everywhere, no injected faults: the duplicate URL
gets one row; the second pass is the identity; and the skip of a present URL
holds even under a failing fetch oracle and a fault-injecting oracle. -/
theorem claim_C1_witness :
    countListings (process_urls fetchW geoW pfW emptyStore urlsW) ("u1".data) = 1
    ∧ process_urls fetchW geoW pfW (process_urls fetchW geoW pfW emptyStore urlsW) urlsW
        = process_urls fetchW geoW pfW emptyStore urlsW
    ∧ processUrl fetchNone geoW pfTrue (process_urls fetchW geoW pfW emptyStore urlsW) ("u1".data)
        = process_urls fetchW geoW pfW emptyStore urlsW :=
  claim_C1_idempotent_ingestion fetchW fetchNone geoW geoW pfW pfTrue urlsW ("u1".data)
    (by decide) (by decide)

/-- C2: transactional atomicity and the no-orphan invariant — a persistence
fault injected on a URL (a `SQLAlchemyError` between the Property insert and
the commit) rolls the transaction back, leaving the store exactly as it was,
so no Property row is committed without its Listing; and after processing
any URL list from the empty store, the committed Listing rows' property
references coincide positionally with the committed Property rows' ids:
every Listing references the Property created in the same transaction and
every Property has its Listing. -/
theorem claim_C2_transactional_atomicity
    (f : List Char → Option (List ScriptBlock))
    (g : Option Json → Option Json → Option (ℚ × ℚ)) (pf : List Char → Bool)
    (s : Store) (u : List Char)
    (f2 : List Char → Option (List ScriptBlock))
    (g2 : Option Json → Option Json → Option (ℚ × ℚ)) (pf2 : List Char → Bool)
    (urls : List (List Char)) (hpf : pf u = true) :
    processUrl f g pf s u = s
    ∧ (process_urls f2 g2 pf2 emptyStore urls).listings.map (fun l => l.property_id)
        = (process_urls f2 g2 pf2 emptyStore urls).properties.map (fun p => p.id) :=
  ⟨processUrl_of_persistFail f g pf s u hpf,
   pairing_process_urls f2 g2 pf2 emptyStore urls rfl⟩

/-- C2 witness: the fault-injected step on the empty store is the identity,
and the positional pairing holds for the sample run. -/
theorem claim_C2_witness :
    processUrl fetchW geoW pfTrue emptyStore ("u1".data) = emptyStore
    ∧ (process_urls fetchW geoW pfW emptyStore urlsW).listings.map (fun l => l.property_id)
        = (process_urls fetchW geoW pfW emptyStore urlsW).properties.map (fun p => p.id) :=
  claim_C2_transactional_atomicity fetchW geoW pfTrue emptyStore ("u1".data)
    fetchW geoW pfW urlsW rfl
